import Mathlib

/-!
Verification of the SecretBid_FHE sealed-bid auction contract
(src/contracts/SecretBid_FHE.sol) against its natural-language design
specification.

Shallow embedding conventions:
- An euint32 ciphertext handle is represented by the plaintext it binds
  (a natural number; the source type bounds it below 2^32).  The
  homomorphic comparison FHE.gt is therefore the comparison of the two
  underlying plaintexts.
- externalEuint32 plus its input proof is a record carrying the
  underlying plaintext and a flag saying whether the proof verifies;
  FHE.fromExternal combined with the FHE.isInitialized require is a
  single fallible ingestion step returning Option.
- Solidity mappings are total functions with the type's default value;
  addresses are naturals with 0 playing the role of address(0);
  block.timestamp and msg.sender are explicit arguments.
- Each external function returns Except Err (ContractState × Event);
  EVM revert semantics (a failing call leaves storage untouched) are
  the runCreate / runBid / runConclude wrappers.
- FHE.checkSignatures is the injected trust boundary: a boolean oracle
  over (handles, cleartext bytes, proof), passed as a parameter.
- uint256 addition startTime + duration is checked arithmetic in
  Solidity 0.8: the embedding fails with ArithmeticOverflow when the
  sum reaches 2^256.
- abi.decode(bytes, uint32) fails when the encoded word does not fit
  in 32 bits; the cleartext bytes argument is modelled by the natural
  number it encodes.
-/

namespace SecretBid

def UINT256 : Nat := 2 ^ 256

def UINT32 : Nat := 2 ^ 32

/-- An externalEuint32 together with its input proof: the plaintext it
encrypts and whether the attached zero-knowledge input proof verifies. -/
structure ExternalBid where
  val : Nat
  validProof : Bool
deriving DecidableEq

/-- FHE.fromExternal followed by the FHE.isInitialized require of
placeBid: ingestion succeeds exactly when the input proof verifies. -/
def fromExternal (e : ExternalBid) : Option Nat :=
  if e.validProof then some e.val else none

/-- struct Auction of the source, with the euint32 highestBid handle
represented by its underlying plaintext. -/
structure Auction where
  nftId : String
  startTime : Nat
  endTime : Nat
  highestBidder : Nat
  highestBid : Nat
  isActive : Bool
deriving DecidableEq

/-- Default value of a Solidity Auction storage slot. -/
def defaultAuction : Auction := ⟨"", 0, 0, 0, 0, false⟩

/-- struct Bid of the source. -/
structure Bid where
  bidder : Nat
  encryptedBid : Nat
  timestamp : Nat
deriving DecidableEq

/-- The contract storage: mappings auctions, bids and auctionExists. -/
structure ContractState where
  auctions : String → Auction
  bids : String → List Bid
  auctionExists : String → Bool

/-- Storage right after deployment: every mapping at its default. -/
def initState : ContractState :=
  ⟨fun _ => defaultAuction, fun _ => [], fun _ => false⟩

/-- Point update of a Solidity mapping. -/
def setKey {α : Type} (m : String → α) (k : String) (v : α) : String → α :=
  fun k' => if k' = k then v else m k'

/-- The three events of the contract. -/
inductive Event where
| AuctionCreated (nftId : String) (startTime endTime : Nat)
| BidPlaced (nftId : String) (bidder : Nat)
| AuctionConcluded (nftId : String) (winner winningBid : Nat)
deriving DecidableEq

/-- Revert reasons of the contract, one per require site, plus the
checked-arithmetic and abi.decode panics. -/
inductive Err where
| AuctionDoesNotExist
| AuctionAlreadyExists
| ArithmeticOverflow
| AuctionNotActive
| AuctionNotStarted
| AuctionEnded
| InvalidEncryptedBid
| AuctionStillActive
| AuctionAlreadyConcluded
| InvalidDecryptionProof
| AbiDecodeFailed
| InvalidBidIndex
deriving DecidableEq

/-- function createAuction(nftId, duration).  The highestBid handle is
FHE.zero(16), an encrypted zero, hence plaintext 0. -/
def createAuction (s : ContractState) (nftId : String) (duration now : Nat) :
    Except Err (ContractState × Event) :=
  if s.auctionExists nftId then .error .AuctionAlreadyExists
  else if UINT256 ≤ now + duration then .error .ArithmeticOverflow
  else
    .ok (⟨setKey s.auctions nftId ⟨nftId, now, now + duration, 0, 0, true⟩,
          s.bids,
          setKey s.auctionExists nftId true⟩,
         .AuctionCreated nftId now (now + duration))

/-- function placeBid(nftId, encryptedBid, inputProof).  The modifier
onlyActiveAuction checks, in source order: existence, isActive,
startTime ≤ now, now ≤ endTime.  Then the external ciphertext is
ingested, the bid is appended to the ledger, and the source's
`if (FHE.gt(encryptedBidValue, auctions[nftId].highestBid))` branch
conditionally replaces the running maximum and bidder. -/
def placeBid (s : ContractState) (nftId : String) (e : ExternalBid)
    (sender now : Nat) : Except Err (ContractState × Event) :=
  if s.auctionExists nftId = false then .error .AuctionDoesNotExist
  else if (s.auctions nftId).isActive = false then .error .AuctionNotActive
  else if now < (s.auctions nftId).startTime then .error .AuctionNotStarted
  else if (s.auctions nftId).endTime < now then .error .AuctionEnded
  else
    match fromExternal e with
    | none => .error .InvalidEncryptedBid
    | some v =>
      .ok (⟨setKey s.auctions nftId
              (if (s.auctions nftId).highestBid < v
               then { s.auctions nftId with highestBid := v, highestBidder := sender }
               else s.auctions nftId),
            setKey s.bids nftId (s.bids nftId ++ [⟨sender, v, now⟩]),
            s.auctionExists⟩,
           .BidPlaced nftId sender)

/-- function concludeAuction(nftId, abiEncodedClearBid, decryptionProof).
cs is the injected FHE.checkSignatures oracle over (handles, cleartext,
proof); the single handle submitted is the stored highestBid. -/
def concludeAuction (cs : List Nat → Nat → Nat → Bool) (s : ContractState)
    (nftId : String) (clearBid proof now : Nat) :
    Except Err (ContractState × Event) :=
  if s.auctionExists nftId = false then .error .AuctionDoesNotExist
  else if now ≤ (s.auctions nftId).endTime then .error .AuctionStillActive
  else if (s.auctions nftId).isActive = false then .error .AuctionAlreadyConcluded
  else if cs [(s.auctions nftId).highestBid] clearBid proof = false then
    .error .InvalidDecryptionProof
  else if UINT32 ≤ clearBid then .error .AbiDecodeFailed
  else
    .ok (⟨setKey s.auctions nftId { s.auctions nftId with isActive := false },
          s.bids,
          s.auctionExists⟩,
         .AuctionConcluded nftId (s.auctions nftId).highestBidder clearBid)

/-- Transaction-level semantics of createAuction: a revert leaves the
storage untouched and emits nothing. -/
def runCreate (s : ContractState) (nftId : String) (duration now : Nat) :
    ContractState × Option Event :=
  match createAuction s nftId duration now with
  | .ok (s', ev) => (s', some ev)
  | .error _ => (s, none)

/-- Transaction-level semantics of placeBid. -/
def runBid (s : ContractState) (nftId : String) (e : ExternalBid)
    (sender now : Nat) : ContractState × Option Event :=
  match placeBid s nftId e sender now with
  | .ok (s', ev) => (s', some ev)
  | .error _ => (s, none)

/-- Transaction-level semantics of concludeAuction. -/
def runConclude (cs : List Nat → Nat → Nat → Bool) (s : ContractState)
    (nftId : String) (clearBid proof now : Nat) : ContractState × Option Event :=
  match concludeAuction cs s nftId clearBid proof now with
  | .ok (s', ev) => (s', some ev)
  | .error _ => (s, none)

/-- function getHighestBid. -/
def getHighestBid (s : ContractState) (nftId : String) : Except Err Nat :=
  if s.auctionExists nftId = false then .error .AuctionDoesNotExist
  else .ok (s.auctions nftId).highestBid

/-- function getBidCount. -/
def getBidCount (s : ContractState) (nftId : String) : Except Err Nat :=
  if s.auctionExists nftId = false then .error .AuctionDoesNotExist
  else .ok (s.bids nftId).length

/-- function getBid. -/
def getBid (s : ContractState) (nftId : String) (index : Nat) :
    Except Err (Nat × Nat × Nat) :=
  if s.auctionExists nftId = false then .error .AuctionDoesNotExist
  else if (s.bids nftId).length ≤ index then .error .InvalidBidIndex
  else
    match (s.bids nftId)[index]? with
    | some b => .ok (b.bidder, b.encryptedBid, b.timestamp)
    | none => .error .InvalidBidIndex

/-- The branch condition of placeBid's update step, exactly as the
source writes it: `if (FHE.gt(encryptedBidValue, auctions[nftId].highestBid))`.
Under the handle semantics this is the strict comparison of the two
underlying plaintexts. -/
def placeBidGtBranch (encryptedBidValue highestBid : Nat) : Bool :=
  decide (highestBid < encryptedBidValue)

/-- One successful state transition of the contract: some external call
that does not revert. -/
def StepOp (s s' : ContractState) : Prop :=
  (∃ nftId duration now ev, createAuction s nftId duration now = .ok (s', ev)) ∨
  (∃ nftId e sender now ev, placeBid s nftId e sender now = .ok (s', ev)) ∨
  (∃ cs nftId clearBid proof now ev,
    concludeAuction cs s nftId clearBid proof now = .ok (s', ev))

/-- Storage states reachable from deployment by successful external
calls.  placeBid steps carry the EVM fact that msg.sender is never the
zero address. -/
inductive Reachable : ContractState → Prop where
| base : Reachable initState
| createStep {s s' : ContractState} {nftId : String} {duration now : Nat}
    {ev : Event} : Reachable s →
    createAuction s nftId duration now = .ok (s', ev) → Reachable s'
| bidStep {s s' : ContractState} {nftId : String} {e : ExternalBid}
    {sender now : Nat} {ev : Event} : Reachable s → sender ≠ 0 →
    placeBid s nftId e sender now = .ok (s', ev) → Reachable s'
| concludeStep {s s' : ContractState} {cs : List Nat → Nat → Nat → Bool}
    {nftId : String} {clearBid proof now : Nat} {ev : Event} : Reachable s →
    concludeAuction cs s nftId clearBid proof now = .ok (s', ev) → Reachable s'

/-- Maximum plaintext value over a bid ledger (0 for the empty ledger,
matching the encrypted-zero initial handle). -/
def maxBidVal (l : List Bid) : Nat :=
  l.foldl (fun m b => max m b.encryptedBid) 0

/-- State invariant maintained by every reachable state: unregistered
ids are untouched storage; for registered ids the window is well formed,
the running maximum handle holds the maximum ledger plaintext, and the
highest bidder is non-null exactly when some accepted bid has a positive
plaintext. -/
def Inv (s : ContractState) : Prop :=
  ∀ nftId,
    (s.auctionExists nftId = false →
      s.bids nftId = [] ∧ s.auctions nftId = defaultAuction) ∧
    (s.auctionExists nftId = true →
      (s.auctions nftId).startTime ≤ (s.auctions nftId).endTime ∧
      (s.auctions nftId).highestBid = maxBidVal (s.bids nftId) ∧
      ((s.auctions nftId).highestBidder ≠ 0 ↔
        ∃ b ∈ s.bids nftId, 0 < b.encryptedBid))

/-- One bid submission of a test scenario: its sender, the plaintext
under its ciphertext, and its block timestamp. -/
structure BidCall where
  sender : Nat
  val : Nat
  time : Nat
deriving DecidableEq

/-- Run a sequence of placeBid calls, each with a well-formed input
proof; none is returned as soon as one call reverts, so a some result
means every bid in the list was accepted. -/
def placeBids (nftId : String) : ContractState → List BidCall → Option ContractState
  | s, [] => some s
  | s, c :: rest =>
    match placeBid s nftId ⟨c.val, true⟩ c.sender c.time with
    | .ok (s', _) => placeBids nftId s' rest
    | .error _ => none

/-- The source's update dynamics on the (running maximum, running
bidder) pair: replace exactly when the new plaintext is strictly
greater. -/
def stepHighest (p : Nat × Nat) (c : BidCall) : Nat × Nat :=
  if p.1 < c.val then (c.val, c.sender) else p

/-- Maximum bid value of a scenario, folded from a floor h. -/
def maxFrom (h : Nat) (l : List BidCall) : Nat :=
  l.foldl (fun m c => max m c.val) h

/-- A decryption oracle that accepts everything (used to build concrete
scenarios). -/
def csTrue : List Nat → Nat → Nat → Bool := fun _ _ _ => true

/-- Extract the post-state of a non-reverting call. -/
def okState : Except Err (ContractState × Event) → Option ContractState
  | .ok (s, _) => some s
  | .error _ => none

/-- Extract the event of a non-reverting call. -/
def okEvent : Except Err (ContractState × Event) → Option Event
  | .ok (_, ev) => some ev
  | .error _ => none

/-- Extract the revert reason of a failing call. -/
def errOf : Except Err (ContractState × Event) → Option Err
  | .ok _ => none
  | .error e => some e

/-- Recorded highest bidder of an auction in an optional state. -/
def highestBidderOf (o : Option ContractState) (nftId : String) : Option Nat :=
  match o with
  | some s => some (s.auctions nftId).highestBidder
  | none => none

/-- Ledger length of an auction in an optional state. -/
def ledgerLenOf (o : Option ContractState) (nftId : String) : Option Nat :=
  match o with
  | some s => some (s.bids nftId).length
  | none => none

/-- Scenario state: auction "a" created at time 0 with duration 10. -/
def sCreated : ContractState := (runCreate initState "a" 10 0).1

/-- Scenario state: bidder 7 placed a bid of plaintext 0 on "a". -/
def sZeroBid : ContractState := (runBid sCreated "a" ⟨0, true⟩ 7 1).1

/-- Scenario state: bidder 7 placed a bid of plaintext 5 on "a". -/
def sPosBid : ContractState := (runBid sCreated "a" ⟨5, true⟩ 7 1).1

/-- Scenario state: auction "a" concluded at time 11 with cleartext 0. -/
def sConcluded : ContractState := (runConclude csTrue sCreated "a" 0 0 11).1

/-- Scenario bid list: bidder 7 bids 5 at time 1, bidder 8 bids 3 at
time 2. -/
def bidListW : List BidCall := [⟨7, 5, 1⟩, ⟨8, 3, 2⟩]

/-- Scenario state after running bidListW on "a". -/
def sTwoBids : ContractState := (placeBids "a" sCreated bidListW).getD initState

/-- Scenario state: auction "a" created at time 5 with duration 10, so
its window is [5, 15]. -/
def sLate : ContractState := (runCreate initState "a" 10 5).1

end SecretBid

namespace SecretBid

theorem bool_ne_false {b : Bool} (h : ¬ b = false) : b = true := by
  cases b
  · exact absurd rfl h
  · rfl

theorem setKey_same {α : Type} (m : String → α) (k : String) (v : α) :
    setKey m k v k = v := by
  simp [setKey]

theorem setKey_other {α : Type} (m : String → α) {k k' : String} (v : α)
    (h : k' ≠ k) : setKey m k v k' = m k' := by
  simp [setKey, h]

theorem fromExternal_eq_some {e : ExternalBid} {v : Nat}
    (h : fromExternal e = some v) : e.validProof = true ∧ v = e.val := by
  unfold fromExternal at h
  split at h
  · exact ⟨by assumption, (Option.some.injEq _ _ ▸ h).symm⟩
  · exact absurd h (by simp)

theorem createAuction_ok {s : ContractState} {nftId : String}
    {duration now : Nat} {s' : ContractState} {ev : Event}
    (h : createAuction s nftId duration now = .ok (s', ev)) :
    s.auctionExists nftId = false ∧ now + duration < UINT256 ∧
    s' = ⟨setKey s.auctions nftId ⟨nftId, now, now + duration, 0, 0, true⟩,
          s.bids, setKey s.auctionExists nftId true⟩ ∧
    ev = .AuctionCreated nftId now (now + duration) := by
  unfold createAuction at h
  split at h
  · exact Except.noConfusion h
  · split at h
    · exact Except.noConfusion h
    · rename_i hex hov
      simp only [Except.ok.injEq, Prod.mk.injEq] at h
      exact ⟨by simpa using hex, by omega, h.1.symm, h.2.symm⟩

theorem placeBid_ok {s : ContractState} {nftId : String} {e : ExternalBid}
    {sender now : Nat} {s' : ContractState} {ev : Event}
    (h : placeBid s nftId e sender now = .ok (s', ev)) :
    s.auctionExists nftId = true ∧ (s.auctions nftId).isActive = true ∧
    (s.auctions nftId).startTime ≤ now ∧ now ≤ (s.auctions nftId).endTime ∧
    e.validProof = true ∧
    s' = ⟨setKey s.auctions nftId
            (if (s.auctions nftId).highestBid < e.val
             then { s.auctions nftId with highestBid := e.val, highestBidder := sender }
             else s.auctions nftId),
          setKey s.bids nftId (s.bids nftId ++ [⟨sender, e.val, now⟩]),
          s.auctionExists⟩ ∧
    ev = .BidPlaced nftId sender := by
  unfold placeBid at h
  split at h
  · exact Except.noConfusion h
  split at h
  · exact Except.noConfusion h
  split at h
  · exact Except.noConfusion h
  split at h
  · exact Except.noConfusion h
  rename_i hex hact hst hend
  split at h
  · exact Except.noConfusion h
  · rename_i v hfe
    obtain ⟨hvp, hv⟩ := fromExternal_eq_some hfe
    subst hv
    simp only [Except.ok.injEq, Prod.mk.injEq] at h
    exact ⟨bool_ne_false hex, bool_ne_false hact, by omega, by omega, hvp,
           h.1.symm, h.2.symm⟩

theorem concludeAuction_ok {cs : List Nat → Nat → Nat → Bool}
    {s : ContractState} {nftId : String} {clearBid proof now : Nat}
    {s' : ContractState} {ev : Event}
    (h : concludeAuction cs s nftId clearBid proof now = .ok (s', ev)) :
    s.auctionExists nftId = true ∧ (s.auctions nftId).endTime < now ∧
    (s.auctions nftId).isActive = true ∧
    cs [(s.auctions nftId).highestBid] clearBid proof = true ∧
    clearBid < UINT32 ∧
    s' = ⟨setKey s.auctions nftId { s.auctions nftId with isActive := false },
          s.bids, s.auctionExists⟩ ∧
    ev = .AuctionConcluded nftId (s.auctions nftId).highestBidder clearBid := by
  unfold concludeAuction at h
  split at h
  · exact Except.noConfusion h
  split at h
  · exact Except.noConfusion h
  split at h
  · exact Except.noConfusion h
  split at h
  · exact Except.noConfusion h
  split at h
  · exact Except.noConfusion h
  rename_i hex hend hact hsig hdec
  simp only [Except.ok.injEq, Prod.mk.injEq] at h
  exact ⟨bool_ne_false hex, by omega, bool_ne_false hact, bool_ne_false hsig,
         by omega, h.1.symm, h.2.symm⟩

end SecretBid

namespace SecretBid

theorem foldl_maxBid_all_zero (l : List Bid) :
    ∀ m : Nat, (∀ b ∈ l, b.encryptedBid = 0) →
      l.foldl (fun m b => max m b.encryptedBid) m = m := by
  induction l with
  | nil => intro m _; rfl
  | cons b t ih =>
    intro m hall
    have hb : b.encryptedBid = 0 := hall b (List.mem_cons_self b t)
    rw [List.foldl_cons, hb, Nat.max_zero]
    exact ih m (fun c hc => hall c (List.mem_cons_of_mem b hc))

theorem maxBidVal_eq_zero {l : List Bid} (h : ∀ b ∈ l, b.encryptedBid = 0) :
    maxBidVal l = 0 :=
  foldl_maxBid_all_zero l 0 h

theorem maxBidVal_append (l : List Bid) (b : Bid) :
    maxBidVal (l ++ [b]) = max (maxBidVal l) b.encryptedBid := by
  simp [maxBidVal, List.foldl_append]

/-- Every reachable storage state satisfies the registry/ledger
invariant. -/
theorem reachable_inv {s : ContractState} (h : Reachable s) : Inv s := by
  induction h with
  | base =>
    intro nftId
    exact ⟨fun _ => ⟨rfl, rfl⟩, fun hx => Bool.noConfusion hx⟩
  | createStep hr hok ih =>
    rename_i s s' nftId duration now ev
    obtain ⟨hex, _, hs', _⟩ := createAuction_ok hok
    intro id
    by_cases hid : id = nftId
    · subst hid
      have e1 : s'.auctions id = ⟨id, now, now + duration, 0, 0, true⟩ := by
        rw [hs']; exact setKey_same _ _ _
      have e2 : s'.bids id = s.bids id := by rw [hs']
      have e3 : s'.auctionExists id = true := by
        rw [hs']; exact setKey_same _ _ _
      constructor
      · intro hx
        exact absurd (e3.symm.trans hx) (by simp)
      · intro _
        obtain ⟨hbids, _⟩ := (ih id).1 hex
        rw [e1, e2, hbids]
        exact ⟨Nat.le_add_right _ _, rfl, by simp⟩
    · have e1 : s'.auctions id = s.auctions id := by
        rw [hs']; exact setKey_other _ _ hid
      have e2 : s'.bids id = s.bids id := by rw [hs']
      have e3 : s'.auctionExists id = s.auctionExists id := by
        rw [hs']; exact setKey_other _ _ hid
      constructor
      · intro hx
        rw [e3] at hx
        rw [e1, e2]
        exact (ih id).1 hx
      · intro hx
        rw [e3] at hx
        rw [e1, e2]
        exact (ih id).2 hx
  | bidStep hr hsend hok ih =>
    rename_i s s' nftId e sender now ev
    obtain ⟨hex, hact, hst, hend, hvp, hs', _⟩ := placeBid_ok hok
    intro id
    by_cases hid : id = nftId
    · subst hid
      have e1 : s'.auctions id =
          (if (s.auctions id).highestBid < e.val
           then { s.auctions id with highestBid := e.val, highestBidder := sender }
           else s.auctions id) := by
        rw [hs']; exact setKey_same _ _ _
      have e2 : s'.bids id = s.bids id ++ [⟨sender, e.val, now⟩] := by
        rw [hs']; exact setKey_same _ _ _
      have e3 : s'.auctionExists id = s.auctionExists id := by rw [hs']
      constructor
      · intro hx
        rw [e3] at hx
        exact absurd (hex.symm.trans hx) (by simp)
      · intro _
        obtain ⟨hse, hmax, hbdr⟩ := (ih id).2 hex
        rw [e1, e2, maxBidVal_append]
        by_cases hgt : (s.auctions id).highestBid < e.val
        · rw [if_pos hgt]
          rw [hmax] at hgt
          refine ⟨hse, ?_, ?_⟩
          · show e.val = max (maxBidVal (s.bids id)) e.val
            exact (Nat.max_eq_right (Nat.le_of_lt hgt)).symm
          · constructor
            · intro _
              exact ⟨⟨sender, e.val, now⟩, by simp,
                     Nat.lt_of_le_of_lt (Nat.zero_le _) hgt⟩
            · intro _
              exact hsend
        · rw [if_neg hgt]
          rw [hmax] at hgt
          refine ⟨hse, ?_, ?_⟩
          · show (s.auctions id).highestBid = max (maxBidVal (s.bids id)) e.val
            rw [hmax]
            exact (Nat.max_eq_left (by omega)).symm
          · show (s.auctions id).highestBidder ≠ 0 ↔ _
            rw [hbdr]
            constructor
            · rintro ⟨b, hb, hpos⟩
              exact ⟨b, List.mem_append_left _ hb, hpos⟩
            · rintro ⟨b, hb, hpos⟩
              rcases List.mem_append.mp hb with hb | hb
              · exact ⟨b, hb, hpos⟩
              · have hbv : b = ⟨sender, e.val, now⟩ := by simpa using hb
                have hpos' : 0 < e.val := by rw [hbv] at hpos; exact hpos
                by_contra h0
                push_neg at h0
                have hz : maxBidVal (s.bids id) = 0 :=
                  maxBidVal_eq_zero (fun c hc => by have := h0 c hc; omega)
                rw [hz] at hgt
                omega
    · have e1 : s'.auctions id = s.auctions id := by
        rw [hs']; exact setKey_other _ _ hid
      have e2 : s'.bids id = s.bids id := by
        rw [hs']; exact setKey_other _ _ hid
      have e3 : s'.auctionExists id = s.auctionExists id := by rw [hs']
      constructor
      · intro hx
        rw [e3] at hx
        rw [e1, e2]
        exact (ih id).1 hx
      · intro hx
        rw [e3] at hx
        rw [e1, e2]
        exact (ih id).2 hx
  | concludeStep hr hok ih =>
    rename_i s s' cs nftId clearBid proof now ev
    obtain ⟨hex, hend, hact, hsig, hdec, hs', _⟩ := concludeAuction_ok hok
    intro id
    by_cases hid : id = nftId
    · subst hid
      have e1 : s'.auctions id = { s.auctions id with isActive := false } := by
        rw [hs']; exact setKey_same _ _ _
      have e2 : s'.bids id = s.bids id := by rw [hs']
      have e3 : s'.auctionExists id = s.auctionExists id := by rw [hs']
      constructor
      · intro hx
        rw [e3] at hx
        exact absurd (hex.symm.trans hx) (by simp)
      · intro _
        obtain ⟨hse, hmax, hbdr⟩ := (ih id).2 hex
        rw [e1, e2]
        exact ⟨hse, hmax, hbdr⟩
    · have e1 : s'.auctions id = s.auctions id := by
        rw [hs']; exact setKey_other _ _ hid
      have e2 : s'.bids id = s.bids id := by rw [hs']
      have e3 : s'.auctionExists id = s.auctionExists id := by rw [hs']
      constructor
      · intro hx
        rw [e3] at hx
        rw [e1, e2]
        exact (ih id).1 hx
      · intro hx
        rw [e3] at hx
        rw [e1, e2]
        exact (ih id).2 hx


theorem maxFrom_cons (h : Nat) (c : BidCall) (t : List BidCall) :
    maxFrom h (c :: t) = maxFrom (max h c.val) t := rfl

/-- Characterization of folding the source's strict-greater update
dynamics from a floor (h, hb): either no bid exceeded h and the pair is
unchanged, or the result is the overall maximum paired with the sender
of the first bid attaining it. -/
theorem foldl_stepHighest_spec (l : List BidCall) :
    ∀ h hb : Nat,
      (maxFrom h l = h ∧ List.foldl stepHighest (h, hb) l = (h, hb)) ∨
      (h < maxFrom h l ∧ ∃ l₁ c l₂, l = l₁ ++ c :: l₂ ∧ c.val = maxFrom h l ∧
        List.foldl stepHighest (h, hb) l = (maxFrom h l, c.sender) ∧
        ∀ d ∈ l₁, d.val < c.val) := by
  induction l with
  | nil =>
    intro h hb
    exact Or.inl ⟨rfl, rfl⟩
  | cons c t ih =>
    intro h hb
    by_cases hlt : h < c.val
    · have hstep : stepHighest (h, hb) c = (c.val, c.sender) := by
        simp [stepHighest, hlt]
      have hmax : maxFrom h (c :: t) = maxFrom c.val t := by
        rw [maxFrom_cons, Nat.max_eq_right (Nat.le_of_lt hlt)]
      rcases ih c.val c.sender with ⟨hm, hf⟩ | ⟨hm, l₁, c', l₂, hsplit, hval, hfold, hall⟩
      · refine Or.inr ⟨?_, [], c, t, rfl, ?_, ?_, by simp⟩
        · rw [hmax, hm]; exact hlt
        · rw [hmax, hm]
        · rw [List.foldl_cons, hstep, hf, hmax, hm]
      · refine Or.inr ⟨?_, c :: l₁, c', l₂, by rw [hsplit, List.cons_append], ?_, ?_, ?_⟩
        · rw [hmax]; exact Nat.lt_trans hlt hm
        · rw [hmax]; exact hval
        · rw [List.foldl_cons, hstep, hmax]; exact hfold
        · intro d hd
          rcases List.mem_cons.mp hd with rfl | hd
          · rw [hval]; exact hm
          · exact hall d hd
    · have hle : c.val ≤ h := Nat.le_of_not_lt hlt
      have hstep : stepHighest (h, hb) c = (h, hb) := by
        simp [stepHighest, hlt]
      have hmax : maxFrom h (c :: t) = maxFrom h t := by
        rw [maxFrom_cons, Nat.max_eq_left hle]
      rcases ih h hb with ⟨hm, hf⟩ | ⟨hm, l₁, c', l₂, hsplit, hval, hfold, hall⟩
      · exact Or.inl ⟨by rw [hmax, hm], by rw [List.foldl_cons, hstep, hf]⟩
      · refine Or.inr ⟨by rw [hmax]; exact hm, c :: l₁, c', l₂, by rw [hsplit, List.cons_append], ?_, ?_, ?_⟩
        · rw [hmax]; exact hval
        · rw [List.foldl_cons, hstep, hmax]; exact hfold
        · intro d hd
          rcases List.mem_cons.mp hd with rfl | hd
          · rw [hval]; exact Nat.lt_of_le_of_lt hle hm
          · exact hall d hd

/-- Running a sequence of accepted bids drives the registered auction's
(running maximum, running bidder) pair exactly by the strict-greater
update dynamics, and keeps the auction registered. -/
theorem placeBids_highest (nftId : String) (l : List BidCall) :
    ∀ s s', placeBids nftId s l = some s' → s.auctionExists nftId = true →
      s'.auctionExists nftId = true ∧
      ((s'.auctions nftId).highestBid, (s'.auctions nftId).highestBidder) =
        List.foldl stepHighest
          ((s.auctions nftId).highestBid, (s.auctions nftId).highestBidder) l := by
  induction l with
  | nil =>
    intro s s' h hreg
    simp only [placeBids] at h
    cases h
    exact ⟨hreg, rfl⟩
  | cons c t ih =>
    intro s s' h hreg
    rw [placeBids] at h
    cases hpb : placeBid s nftId ⟨c.val, true⟩ c.sender c.time with
    | error err =>
      rw [hpb] at h
      exact Option.noConfusion h
    | ok pr =>
      obtain ⟨s₁, ev⟩ := pr
      rw [hpb] at h
      obtain ⟨hex, hact, hst, hend, hvp, hs₁, _⟩ := placeBid_ok hpb
      have e1 : s₁.auctions nftId =
          (if (s.auctions nftId).highestBid < c.val
           then { s.auctions nftId with highestBid := c.val, highestBidder := c.sender }
           else s.auctions nftId) := by
        rw [hs₁]; exact setKey_same _ _ _
      have e3 : s₁.auctionExists nftId = true := by rw [hs₁]; exact hreg
      obtain ⟨hreg', hpair⟩ := ih s₁ s' h e3
      refine ⟨hreg', ?_⟩
      rw [List.foldl_cons, hpair, e1]
      by_cases hgt : (s.auctions nftId).highestBid < c.val
      · rw [if_pos hgt]
        have : stepHighest ((s.auctions nftId).highestBid, (s.auctions nftId).highestBidder) c
            = (c.val, c.sender) := by
          simp [stepHighest, hgt]
        rw [this]
      · rw [if_neg hgt]
        have : stepHighest ((s.auctions nftId).highestBid, (s.auctions nftId).highestBidder) c
            = ((s.auctions nftId).highestBid, (s.auctions nftId).highestBidder) := by
          simp [stepHighest, hgt]
        rw [this]

end SecretBid

namespace SecretBid

theorem getBidCount_ok {s : ContractState} {nftId : String} {n : Nat}
    (h : getBidCount s nftId = .ok n) : n = (s.bids nftId).length := by
  unfold getBidCount at h
  split at h
  · exact Except.noConfusion h
  · simp only [Except.ok.injEq] at h
    exact h.symm

theorem stepOp_bids_append {s s' : ContractState} (h : StepOp s s')
    (nftId : String) : ∃ t, s'.bids nftId = s.bids nftId ++ t := by
  rcases h with ⟨id, duration, now, ev, hok⟩ |
               ⟨id, e, sender, now, ev, hok⟩ |
               ⟨cs, id, clearBid, proof, now, ev, hok⟩
  · obtain ⟨_, _, hs', _⟩ := createAuction_ok hok
    exact ⟨[], by rw [hs']; simp⟩
  · obtain ⟨_, _, _, _, _, hs', _⟩ := placeBid_ok hok
    by_cases hid : nftId = id
    · subst hid
      refine ⟨[⟨sender, e.val, now⟩], ?_⟩
      rw [hs']
      exact setKey_same _ _ _
    · refine ⟨[], ?_⟩
      rw [hs']
      show setKey s.bids id _ nftId = s.bids nftId ++ []
      rw [setKey_other _ _ hid]
      simp
  · obtain ⟨_, _, _, _, _, hs', _⟩ := concludeAuction_ok hok
    exact ⟨[], by rw [hs']; simp⟩

/-- C1 (amended): starting from a registered auction whose running
maximum handle is encrypted zero, after any sequence of accepted bids
whose maximum plaintext is positive, the recorded highest bidder is the
sender of the first accepted bid attaining the maximum plaintext, and
the running maximum handle holds that maximum.  (The amendment excludes
the all-zero-bid case, where the strictly-greater-than update never
fires and the highest bidder stays the null address; see the
counterexample.) -/
theorem C1_first_max_bidder_wins (nftId : String) (s s' : ContractState)
    (l : List BidCall) (hreg : s.auctionExists nftId = true)
    (hzero : (s.auctions nftId).highestBid = 0)
    (hrun : placeBids nftId s l = some s') (hpos : 0 < maxFrom 0 l) :
    ∃ l₁ c l₂, l = l₁ ++ c :: l₂ ∧ c.val = maxFrom 0 l ∧
      (s'.auctions nftId).highestBidder = c.sender ∧
      (s'.auctions nftId).highestBid = maxFrom 0 l ∧
      ∀ d ∈ l₁, d.val < c.val := by
  obtain ⟨hreg', hpair⟩ := placeBids_highest nftId l s s' hrun hreg
  rw [hzero] at hpair
  rcases foldl_stepHighest_spec l 0 (s.auctions nftId).highestBidder with
    ⟨hm, _⟩ | ⟨_, l₁, c, l₂, hsplit, hval, hfold, hall⟩
  · rw [hm] at hpos
    exact absurd hpos (by omega)
  · rw [hfold] at hpair
    refine ⟨l₁, c, l₂, hsplit, hval, ?_, ?_, hall⟩
    · have := congrArg Prod.snd hpair
      simpa using this
    · have := congrArg Prod.fst hpair
      simpa using this

/-- C1 counterexample: a single accepted bid of plaintext 0 by bidder 7
is the (unique) maximal accepted bid, yet the recorded highest bidder is
the null address 0, not bidder 7 — the strictly-greater-than update
against the encrypted-zero initial handle never fires. -/
theorem C1_counterexample :
    ledgerLenOf (placeBids "a" sCreated [⟨7, 0, 1⟩]) "a" = some 1 ∧
    highestBidderOf (placeBids "a" sCreated [⟨7, 0, 1⟩]) "a" = some 0 ∧
    maxFrom 0 [⟨7, 0, 1⟩] = 0 ∧ (7 : Nat) ≠ 0 :=
  ⟨rfl, rfl, rfl, by decide⟩

/-- C1 witness: bidder 7 bids 5 at time 1, then bidder 8 bids 3 at
time 2; the first bid attains the maximum 5 and bidder 7 is recorded. -/
theorem C1_witness :
    ∃ l₁ c l₂, bidListW = l₁ ++ c :: l₂ ∧ c.val = maxFrom 0 bidListW ∧
      (sTwoBids.auctions "a").highestBidder = c.sender ∧
      (sTwoBids.auctions "a").highestBid = maxFrom 0 bidListW ∧
      ∀ d ∈ l₁, d.val < c.val :=
  C1_first_max_bidder_wins "a" sCreated sTwoBids bidListW rfl rfl rfl (by decide)

/-- C2: the update step of placeBid is written
`if (FHE.gt(encryptedBidValue, auctions[nftId].highestBid))` — a control
flow branch whose direction is the comparison of the two underlying
plaintexts.  Two placeBid calls on the same storage that differ only in
the submitted plaintext (1 versus 0 against stored highest-bid plaintext
0) take different branches and leave different registry contents, so
control flow is not plaintext-independent and the update is not an
unconditional homomorphic selection. -/
theorem C2_branch_depends_on_plaintext :
    placeBidGtBranch 1 0 = true ∧ placeBidGtBranch 0 0 = false ∧
    highestBidderOf (okState (placeBid sCreated "a" ⟨1, true⟩ 7 1)) "a" = some 7 ∧
    highestBidderOf (okState (placeBid sCreated "a" ⟨0, true⟩ 7 1)) "a" = some 0 :=
  ⟨rfl, rfl, rfl, rfl⟩

/-- C3 counterexample: two successful conclusions of the same auction
state with different cleartext amounts (80 versus 90) produce identical
post-states — the winning amount (and winner) exist only in the emitted
event, so nothing is recorded in the auction's state beyond clearing
isActive, and there is no stored concluded flag or revealed
winner/amount as the claim asserts. -/
theorem C3_counterexample :
    okState (concludeAuction csTrue sCreated "a" 80 0 11) =
      okState (concludeAuction csTrue sCreated "a" 90 0 11) ∧
    okEvent (concludeAuction csTrue sCreated "a" 80 0 11) =
      some (.AuctionConcluded "a" 0 80) ∧
    okEvent (concludeAuction csTrue sCreated "a" 90 0 11) =
      some (.AuctionConcluded "a" 0 90) :=
  ⟨rfl, rfl, rfl⟩

/-- C3 (amended): when concludeAuction succeeds (id registered, now past
end, not yet concluded, proof verifies, cleartext decodes as uint32) it
decodes the winning amount, clears isActive — the only storage change,
concluded-ness being represented by isActive = false — and emits
AuctionConcluded(id, storedHighestBidder, decodedAmount).  No concluded
flag and no revealed winner/amount are stored. -/
theorem C3_conclude_success (cs : List Nat → Nat → Nat → Bool)
    (s : ContractState) (nftId : String) (clearBid proof now : Nat)
    (hreg : s.auctionExists nftId = true)
    (hend : (s.auctions nftId).endTime < now)
    (hact : (s.auctions nftId).isActive = true)
    (hsig : cs [(s.auctions nftId).highestBid] clearBid proof = true)
    (hdec : clearBid < UINT32) :
    concludeAuction cs s nftId clearBid proof now =
      .ok (⟨setKey s.auctions nftId { s.auctions nftId with isActive := false },
            s.bids, s.auctionExists⟩,
           .AuctionConcluded nftId (s.auctions nftId).highestBidder clearBid) := by
  unfold concludeAuction
  rw [if_neg (by simp [hreg]), if_neg (by omega), if_neg (by simp [hact]),
      if_neg (by simp [hsig]), if_neg (by omega)]

/-- C3 witness: concluding the freshly created auction "a" at time 11
with cleartext 80 yields exactly the isActive-cleared state and the
AuctionConcluded event. -/
theorem C3_witness :
    concludeAuction csTrue sCreated "a" 80 0 11 =
      .ok (⟨setKey sCreated.auctions "a"
              { sCreated.auctions "a" with isActive := false },
            sCreated.bids, sCreated.auctionExists⟩,
           .AuctionConcluded "a" (sCreated.auctions "a").highestBidder 80) :=
  C3_conclude_success csTrue sCreated "a" 80 0 11 rfl (by decide) rfl rfl (by decide)

/-- C4: once concludeAuction has succeeded on an id, any later call
(time being monotone) reverts with the already-concluded error and, at
transaction level, leaves the state written by the first call unchanged:
at most one concluded transition per auction. -/
theorem C4_conclude_idempotent (cs cs' : List Nat → Nat → Nat → Bool)
    (s s' : ContractState) (nftId : String)
    (clearBid proof now clearBid' proof' now' : Nat) (ev : Event)
    (h1 : concludeAuction cs s nftId clearBid proof now = .ok (s', ev))
    (hmono : now ≤ now') :
    concludeAuction cs' s' nftId clearBid' proof' now' =
      .error .AuctionAlreadyConcluded ∧
    runConclude cs' s' nftId clearBid' proof' now' = (s', none) := by
  obtain ⟨hex, hend, hact, _, _, hs', _⟩ := concludeAuction_ok h1
  have e1 : s'.auctions nftId = { s.auctions nftId with isActive := false } := by
    rw [hs']; exact setKey_same _ _ _
  have e3 : s'.auctionExists nftId = true := by rw [hs']; exact hex
  have he : (s'.auctions nftId).endTime = (s.auctions nftId).endTime := by
    rw [e1]
  have ha : (s'.auctions nftId).isActive = false := by rw [e1]
  have hfail : concludeAuction cs' s' nftId clearBid' proof' now' =
      .error .AuctionAlreadyConcluded := by
    unfold concludeAuction
    rw [if_neg (by simp [e3]), if_neg (by omega), if_pos ha]
  exact ⟨hfail, by unfold runConclude; rw [hfail]⟩

/-- C4 witness: auction "a" concluded at time 11; a second conclusion
attempt at time 12 reverts with the already-concluded error and changes
nothing. -/
theorem C4_witness :
    concludeAuction csTrue sConcluded "a" 5 9 12 =
      .error .AuctionAlreadyConcluded ∧
    runConclude csTrue sConcluded "a" 5 9 12 = (sConcluded, none) :=
  C4_conclude_idempotent csTrue csTrue sCreated sConcluded "a" 0 0 11 5 9 12
    (.AuctionConcluded "a" 0 0) rfl (by decide)

end SecretBid

namespace SecretBid

/-- C5 counterexample: a registered, already-concluded auction whose end
time (10) is in the past: placeBid at time 12 reverts with the
not-active error (the modifier checks isActive before the time window),
not with the auction-ended error the claim assigns to the condition
now > end. -/
theorem C5_counterexample :
    sConcluded.auctionExists "a" = true ∧
    (sConcluded.auctions "a").isActive = false ∧
    (sConcluded.auctions "a").endTime = 10 ∧
    errOf (placeBid sConcluded "a" ⟨5, true⟩ 7 12) = some .AuctionNotActive ∧
    Err.AuctionNotActive ≠ Err.AuctionEnded :=
  ⟨rfl, rfl, rfl, rfl, by decide⟩

/-- C5 (amended): placeBid's revert reason follows the modifier's check
order — does-not-exist if the id is unregistered; else not-active if
isActive is false; else not-started if now < start; else ended if
now > end.  Every failing case leaves the storage unchanged at
transaction level, and a successful call implies the id is registered,
active, and now lies inside [start, end]. -/
theorem C5_placeBid_errors (s : ContractState) (nftId : String)
    (e : ExternalBid) (sender now : Nat) :
    (s.auctionExists nftId = false →
      placeBid s nftId e sender now = .error .AuctionDoesNotExist ∧
      runBid s nftId e sender now = (s, none)) ∧
    (s.auctionExists nftId = true → (s.auctions nftId).isActive = false →
      placeBid s nftId e sender now = .error .AuctionNotActive ∧
      runBid s nftId e sender now = (s, none)) ∧
    (s.auctionExists nftId = true → (s.auctions nftId).isActive = true →
      now < (s.auctions nftId).startTime →
      placeBid s nftId e sender now = .error .AuctionNotStarted ∧
      runBid s nftId e sender now = (s, none)) ∧
    (s.auctionExists nftId = true → (s.auctions nftId).isActive = true →
      (s.auctions nftId).startTime ≤ now → (s.auctions nftId).endTime < now →
      placeBid s nftId e sender now = .error .AuctionEnded ∧
      runBid s nftId e sender now = (s, none)) ∧
    (∀ s' ev, placeBid s nftId e sender now = .ok (s', ev) →
      s.auctionExists nftId = true ∧ (s.auctions nftId).isActive = true ∧
      (s.auctions nftId).startTime ≤ now ∧ now ≤ (s.auctions nftId).endTime) := by
  refine ⟨?_, ?_, ?_, ?_, ?_⟩
  · intro h1
    have hp : placeBid s nftId e sender now = .error .AuctionDoesNotExist := by
      unfold placeBid
      rw [if_pos h1]
    exact ⟨hp, by unfold runBid; rw [hp]⟩
  · intro h1 h2
    have hp : placeBid s nftId e sender now = .error .AuctionNotActive := by
      unfold placeBid
      rw [if_neg (by simp [h1]), if_pos h2]
    exact ⟨hp, by unfold runBid; rw [hp]⟩
  · intro h1 h2 h3
    have hp : placeBid s nftId e sender now = .error .AuctionNotStarted := by
      unfold placeBid
      rw [if_neg (by simp [h1]), if_neg (by simp [h2]), if_pos h3]
    exact ⟨hp, by unfold runBid; rw [hp]⟩
  · intro h1 h2 h3 h4
    have hp : placeBid s nftId e sender now = .error .AuctionEnded := by
      unfold placeBid
      rw [if_neg (by simp [h1]), if_neg (by simp [h2]), if_neg (by omega),
          if_pos h4]
    exact ⟨hp, by unfold runBid; rw [hp]⟩
  · intro s' ev hok
    obtain ⟨a, b, c, d, _⟩ := placeBid_ok hok
    exact ⟨a, b, c, d⟩

/-- C5 witness: each revert case of the amended claim at a concrete
input, plus a concrete successful call inside the window. -/
theorem C5_witness :
    (placeBid initState "x" ⟨1, true⟩ 7 0 = .error .AuctionDoesNotExist ∧
      runBid initState "x" ⟨1, true⟩ 7 0 = (initState, none)) ∧
    (placeBid sConcluded "a" ⟨5, true⟩ 7 12 = .error .AuctionNotActive ∧
      runBid sConcluded "a" ⟨5, true⟩ 7 12 = (sConcluded, none)) ∧
    (placeBid sLate "a" ⟨5, true⟩ 7 3 = .error .AuctionNotStarted ∧
      runBid sLate "a" ⟨5, true⟩ 7 3 = (sLate, none)) ∧
    (placeBid sCreated "a" ⟨5, true⟩ 7 11 = .error .AuctionEnded ∧
      runBid sCreated "a" ⟨5, true⟩ 7 11 = (sCreated, none)) ∧
    (sCreated.auctionExists "a" = true ∧
      (sCreated.auctions "a").isActive = true ∧
      (sCreated.auctions "a").startTime ≤ 1 ∧
      1 ≤ (sCreated.auctions "a").endTime) :=
  ⟨(C5_placeBid_errors initState "x" ⟨1, true⟩ 7 0).1 rfl,
   (C5_placeBid_errors sConcluded "a" ⟨5, true⟩ 7 12).2.1 rfl rfl,
   (C5_placeBid_errors sLate "a" ⟨5, true⟩ 7 3).2.2.1 rfl rfl (by decide),
   (C5_placeBid_errors sCreated "a" ⟨5, true⟩ 7 11).2.2.2.1 rfl rfl
     (by decide) (by decide),
   (C5_placeBid_errors sCreated "a" ⟨5, true⟩ 7 1).2.2.2.2 sPosBid
     (.BidPlaced "a" 7) rfl⟩

/-- C6: every external operation is atomic.  Each call either reverts —
and then the transaction-level semantics returns the pre-state with no
event, covering in particular the invalid-ciphertext revert after the
window checks and the invalid-proof revert during conclusion — or
succeeds and applies its full update together with its event. -/
theorem C6_atomicity :
    (∀ s nftId duration now,
      (∃ err, createAuction s nftId duration now = .error err ∧
        runCreate s nftId duration now = (s, none)) ∨
      (∃ s' ev, createAuction s nftId duration now = .ok (s', ev) ∧
        runCreate s nftId duration now = (s', some ev))) ∧
    (∀ s nftId e sender now,
      (∃ err, placeBid s nftId e sender now = .error err ∧
        runBid s nftId e sender now = (s, none)) ∨
      (∃ s' ev, placeBid s nftId e sender now = .ok (s', ev) ∧
        runBid s nftId e sender now = (s', some ev))) ∧
    (∀ cs s nftId clearBid proof now,
      (∃ err, concludeAuction cs s nftId clearBid proof now = .error err ∧
        runConclude cs s nftId clearBid proof now = (s, none)) ∨
      (∃ s' ev, concludeAuction cs s nftId clearBid proof now = .ok (s', ev) ∧
        runConclude cs s nftId clearBid proof now = (s', some ev))) := by
  refine ⟨?_, ?_, ?_⟩
  · intro s nftId duration now
    cases h : createAuction s nftId duration now with
    | error err =>
      exact Or.inl ⟨err, rfl, by unfold runCreate; rw [h]⟩
    | ok pr =>
      obtain ⟨s', ev⟩ := pr
      exact Or.inr ⟨s', ev, rfl, by unfold runCreate; rw [h]⟩
  · intro s nftId e sender now
    cases h : placeBid s nftId e sender now with
    | error err =>
      exact Or.inl ⟨err, rfl, by unfold runBid; rw [h]⟩
    | ok pr =>
      obtain ⟨s', ev⟩ := pr
      exact Or.inr ⟨s', ev, rfl, by unfold runBid; rw [h]⟩
  · intro cs s nftId clearBid proof now
    cases h : concludeAuction cs s nftId clearBid proof now with
    | error err =>
      exact Or.inl ⟨err, rfl, by unfold runConclude; rw [h]⟩
    | ok pr =>
      obtain ⟨s', ev⟩ := pr
      exact Or.inr ⟨s', ev, rfl, by unfold runConclude; rw [h]⟩

/-- C7 counterexample: a reachable state in which the auction has one
accepted bid (ledger length 1) yet the highest bidder field still holds
the null address 0 — the accepted bid's plaintext is 0, so the
strictly-greater-than update never fired.  This refutes the claimed
equivalence between a non-null highest bidder and the existence of an
accepted bid. -/
theorem C7_counterexample :
    Reachable sZeroBid ∧
    (sZeroBid.bids "a").length = 1 ∧
    (sZeroBid.auctions "a").highestBidder = 0 :=
  ⟨Reachable.bidStep
      (Reachable.createStep Reachable.base
        (show createAuction initState "a" 10 0 =
            .ok (sCreated, .AuctionCreated "a" 0 10) from rfl))
      (by decide)
      (show placeBid sCreated "a" ⟨0, true⟩ 7 1 =
          .ok (sZeroBid, .BidPlaced "a" 7) from rfl),
   rfl, rfl⟩

/-- C7 (amended): in every reachable state, for every registered
auction, the highest bidder field is non-null exactly when at least one
accepted bid has a positive plaintext (msg.sender being a non-null
address).  With only zero-plaintext accepted bids the field stays the
null address. -/
theorem C7_highest_bidder_iff (s : ContractState) (nftId : String)
    (hr : Reachable s) (hreg : s.auctionExists nftId = true) :
    (s.auctions nftId).highestBidder ≠ 0 ↔
      ∃ b ∈ s.bids nftId, 0 < b.encryptedBid :=
  ((reachable_inv hr nftId).2 hreg).2.2

/-- C7 witness: the reachable state after bidder 7 placed a bid of
plaintext 5 — both sides of the equivalence hold. -/
theorem C7_witness :
    (sPosBid.auctions "a").highestBidder ≠ 0 ↔
      ∃ b ∈ sPosBid.bids "a", 0 < b.encryptedBid :=
  C7_highest_bidder_iff sPosBid "a"
    (Reachable.bidStep
      (Reachable.createStep Reachable.base
        (show createAuction initState "a" 10 0 =
            .ok (sCreated, .AuctionCreated "a" 0 10) from rfl))
      (by decide)
      (show placeBid sCreated "a" ⟨5, true⟩ 7 1 =
          .ok (sPosBid, .BidPlaced "a" 7) from rfl))
    rfl

/-- C8 counterexample: with an unregistered id and duration 2^256 - 1 at
time 1, createAuction reverts with the checked-arithmetic overflow
(computing endTime = now + duration), so "otherwise it sets
start = now, ..." fails: the claim misses this third outcome. -/
theorem C8_counterexample :
    initState.auctionExists "a" = false ∧
    createAuction initState "a" (UINT256 - 1) 1 = .error .ArithmeticOverflow ∧
    Err.ArithmeticOverflow ≠ Err.AuctionAlreadyExists :=
  ⟨rfl, rfl, by decide⟩

/-- C8 (amended): createAuction reverts with already-exists on a
registered id; on an unregistered id it reverts with arithmetic
overflow when now + duration reaches 2^256, and otherwise registers the
auction with start = now, end = now + duration, active = true,
encrypted-zero highest bid, null highest bidder, emitting
AuctionCreated(id, start, end) with start ≤ end; consequently every
registered auction in a reachable state satisfies start ≤ end. -/
theorem C8_createAuction_spec :
    (∀ s nftId duration now, s.auctionExists nftId = true →
      createAuction s nftId duration now = .error .AuctionAlreadyExists ∧
      runCreate s nftId duration now = (s, none)) ∧
    (∀ s nftId duration now, s.auctionExists nftId = false →
      now + duration < UINT256 →
      createAuction s nftId duration now =
        .ok (⟨setKey s.auctions nftId ⟨nftId, now, now + duration, 0, 0, true⟩,
              s.bids, setKey s.auctionExists nftId true⟩,
             .AuctionCreated nftId now (now + duration)) ∧
      now ≤ now + duration) ∧
    (∀ s, Reachable s → ∀ nftId, s.auctionExists nftId = true →
      (s.auctions nftId).startTime ≤ (s.auctions nftId).endTime) := by
  refine ⟨?_, ?_, ?_⟩
  · intro s nftId duration now h
    have hp : createAuction s nftId duration now = .error .AuctionAlreadyExists := by
      unfold createAuction
      rw [if_pos h]
    exact ⟨hp, by unfold runCreate; rw [hp]⟩
  · intro s nftId duration now h hov
    refine ⟨?_, Nat.le_add_right _ _⟩
    unfold createAuction
    rw [if_neg (by simp [h]), if_neg (by omega)]
  · intro s hr nftId hreg
    exact ((reachable_inv hr nftId).2 hreg).1

/-- C8 witness: the three cases at concrete inputs — re-creating "a"
reverts with already-exists; creating fresh "b" registers it with the
stated fields; the created auction "a" satisfies start ≤ end. -/
theorem C8_witness :
    (createAuction sCreated "a" 5 20 = .error .AuctionAlreadyExists ∧
      runCreate sCreated "a" 5 20 = (sCreated, none)) ∧
    (createAuction initState "b" 10 0 =
      .ok (⟨setKey initState.auctions "b" ⟨"b", 0, 0 + 10, 0, 0, true⟩,
            initState.bids, setKey initState.auctionExists "b" true⟩,
           .AuctionCreated "b" 0 (0 + 10)) ∧
      (0 : Nat) ≤ 0 + 10) ∧
    (sCreated.auctions "a").startTime ≤ (sCreated.auctions "a").endTime :=
  ⟨C8_createAuction_spec.1 sCreated "a" 5 20 rfl,
   C8_createAuction_spec.2.1 initState "b" 10 0 rfl (by decide),
   C8_createAuction_spec.2.2 sCreated
     (Reachable.createStep Reachable.base
       (show createAuction initState "a" 10 0 =
           .ok (sCreated, .AuctionCreated "a" 0 10) from rfl))
     "a" rfl⟩

/-- C9: the per-auction bid ledger is append-only: every successful
operation extends each ledger on the right (so no entry is ever removed,
reordered or modified), placeBid appends exactly one entry — the
submitted (bidder, plaintext, timestamp) — touching no other auction's
ledger, and getBidCount is monotone across any successful step. -/
theorem C9_ledger_append_only :
    (∀ s s', StepOp s s' → ∀ nftId,
      ∃ t, s'.bids nftId = s.bids nftId ++ t) ∧
    (∀ s nftId e sender now s' ev,
      placeBid s nftId e sender now = .ok (s', ev) →
      s'.bids nftId = s.bids nftId ++ [⟨sender, e.val, now⟩] ∧
      ∀ id, id ≠ nftId → s'.bids id = s.bids id) ∧
    (∀ s s', StepOp s s' → ∀ nftId n n',
      getBidCount s nftId = .ok n → getBidCount s' nftId = .ok n' → n ≤ n') := by
  refine ⟨?_, ?_, ?_⟩
  · intro s s' h nftId
    exact stepOp_bids_append h nftId
  · intro s nftId e sender now s' ev hok
    obtain ⟨_, _, _, _, _, hs', _⟩ := placeBid_ok hok
    constructor
    · rw [hs']
      exact setKey_same _ _ _
    · intro id hid
      rw [hs']
      exact setKey_other _ _ hid
  · intro s s' h nftId n n' hn hn'
    obtain ⟨t, ht⟩ := stepOp_bids_append h nftId
    have h1 := getBidCount_ok hn
    have h2 := getBidCount_ok hn'
    rw [h1, h2, ht, List.length_append]
    omega

/-- C9 witness: the accepted zero-plaintext bid of bidder 7 extends the
ledger of "a" on the right by exactly that entry, touches no other
ledger, and the bid count goes from 0 to 1. -/
theorem C9_witness :
    (∃ t, sZeroBid.bids "a" = sCreated.bids "a" ++ t) ∧
    (sZeroBid.bids "a" = sCreated.bids "a" ++ [⟨7, 0, 1⟩] ∧
      ∀ id, id ≠ "a" → sZeroBid.bids id = sCreated.bids id) ∧
    (0 : Nat) ≤ 1 :=
  ⟨C9_ledger_append_only.1 sCreated sZeroBid
      (Or.inr (Or.inl ⟨"a", ⟨0, true⟩, 7, 1, .BidPlaced "a" 7, rfl⟩)) "a",
   C9_ledger_append_only.2.1 sCreated "a" ⟨0, true⟩ 7 1 sZeroBid
     (.BidPlaced "a" 7) rfl,
   C9_ledger_append_only.2.2 sCreated sZeroBid
     (Or.inr (Or.inl ⟨"a", ⟨0, true⟩, 7, 1, .BidPlaced "a" 7, rfl⟩)) "a" 0 1
     rfl rfl⟩

/-- C10: concluding a reachable, registered auction whose ledger is
empty, past its end time, with a proof the oracle accepts for the
initial encrypted-zero handle and a uint32-decodable cleartext,
succeeds: isActive is cleared and AuctionConcluded is emitted with the
null winner 0 and the decoded cleartext amount — zero bids is not an
error. -/
theorem C10_zero_bid_conclude (cs : List Nat → Nat → Nat → Bool)
    (s : ContractState) (nftId : String) (clearBid proof now : Nat)
    (hr : Reachable s) (hreg : s.auctionExists nftId = true)
    (hempty : s.bids nftId = []) (hact : (s.auctions nftId).isActive = true)
    (hend : (s.auctions nftId).endTime < now)
    (hsig : cs [0] clearBid proof = true) (hdec : clearBid < UINT32) :
    concludeAuction cs s nftId clearBid proof now =
      .ok (⟨setKey s.auctions nftId { s.auctions nftId with isActive := false },
            s.bids, s.auctionExists⟩,
           .AuctionConcluded nftId 0 clearBid) := by
  obtain ⟨_, hmax, hbdr⟩ := (reachable_inv hr nftId).2 hreg
  have hzero : (s.auctions nftId).highestBid = 0 := by
    rw [hmax, hempty]
    rfl
  have hbdr0 : (s.auctions nftId).highestBidder = 0 := by
    by_contra hne
    obtain ⟨b, hb, _⟩ := hbdr.mp hne
    rw [hempty] at hb
    exact absurd hb (List.not_mem_nil b)
  unfold concludeAuction
  rw [if_neg (by simp [hreg]), if_neg (by omega), if_neg (by simp [hact]),
      if_neg (by rw [hzero]; simp [hsig]), if_neg (by omega), hbdr0]

/-- C10 witness: the freshly created auction "a" with its empty ledger,
concluded at time 11 with cleartext 0 under the accepting oracle. -/
theorem C10_witness :
    concludeAuction csTrue sCreated "a" 0 0 11 =
      .ok (⟨setKey sCreated.auctions "a"
              { sCreated.auctions "a" with isActive := false },
            sCreated.bids, sCreated.auctionExists⟩,
           .AuctionConcluded "a" 0 0) :=
  C10_zero_bid_conclude csTrue sCreated "a" 0 0 11
    (Reachable.createStep Reachable.base
      (show createAuction initState "a" 10 0 =
          .ok (sCreated, .AuctionCreated "a" 0 10) from rfl))
    rfl rfl rfl (by decide) rfl (by decide)

end SecretBid
